import Mathlib

/-!
Verification of the CKB core specification against a shallow embedding of the
node's Rust sources: the header verification pipeline
(verification/src/header_verifier.rs), the old-core block commitment check
(core/src/block.rs), and the chain query RPC surface (rpc/src/module/chain.rs).

Machine integers (u64) are embedded as `Nat`; the claims under study do not
depend on wrapping behaviour.  Hashes (H256) are embedded as opaque `Nat`
identifiers.  The cryptographic hash combining two nodes is an arbitrary
function parameter `Hash2`.
-/

/-- A 32-byte hash, embedded as an opaque identifier. -/
abbrev H256 := Nat

/-- The internal-node hash `hash(left || right)`, kept abstract. -/
abbrev Hash2 := Nat → Nat → Nat

/-! ## Header verification pipeline (verification/src/header_verifier.rs) -/

/-- The header fields consumed by the header verifier. -/
structure HeaderM where
  parentHash : H256
  timestamp : Nat
  number : Nat
  difficulty : Nat
deriving DecidableEq

/-- `TimestampError` from verification/src/error.rs, as used by
`TimestampVerifier::verify`. -/
inductive TimestampErrorM where
  | BlockTimeTooEarly (min found : Nat)
  | BlockTimeTooNew (max found : Nat)
deriving DecidableEq

/-- `PowError` variant produced by `PowVerifier::verify`. -/
inductive PowErrorM where
  | InvalidProof
deriving DecidableEq

/-- `NumberError { expected, actual }` produced by `NumberVerifier::verify`. -/
structure NumberErrorM where
  expected : Nat
  actual : Nat
deriving DecidableEq

/-- `DifficultyError` variants produced by `DifficultyVerifier::verify`. -/
inductive DifficultyErrorM where
  | AncestorNotFound
  | MixMismatch (expected actual : Nat)
deriving DecidableEq

/-- The verification `Error` sum type, restricted to the variants reachable
from `HeaderVerifier::verify`. -/
inductive VerifyError where
  | Pow (e : PowErrorM)
  | UnknownParent (hash : H256)
  | Number (e : NumberErrorM)
  | Timestamp (e : TimestampErrorM)
  | Difficulty (e : DifficultyErrorM)
deriving DecidableEq

/-- Modelled from the spec: `ALLOWED_FUTURE_BLOCKTIME` lives in
verification/src/shared.rs which is not part of the sources; the spec fixes it
to 15000 ms. -/
def ALLOWED_FUTURE_BLOCKTIME : Nat := 15000

/-- A `HeaderResolver`: the target header plus the resolver's two lookups
(parent header, expected difficulty). -/
structure HeaderResolverM where
  header : HeaderM
  parent : Option HeaderM
  calculate_difficulty : Option Nat

/-- The slice of `ChainProvider` consumed by `TimestampVerifier`. -/
structure ChainProviderM where
  block_median_time : H256 → Option Nat

/-- `PowVerifier::verify`: delegates to the PoW engine's `verify_header`. -/
def PowVerifier.verify (pow : HeaderM → Bool) (header : HeaderM) :
    Except VerifyError Unit :=
  if pow header then .ok () else .error (.Pow .InvalidProof)

/-- `NumberVerifier::verify`: requires `header.number == parent.number + 1`. -/
def NumberVerifier.verify (parent header : HeaderM) : Except VerifyError Unit :=
  if header.number ≠ parent.number + 1 then
    .error (.Number ⟨parent.number + 1, header.number⟩)
  else
    .ok ()

/-- `TimestampVerifier::verify`: lower bound against the parent's median time,
upper bound against `now + ALLOWED_FUTURE_BLOCKTIME`. -/
def TimestampVerifier.verify (cp : ChainProviderM) (now : Nat) (header : HeaderM) :
    Except VerifyError Unit :=
  match cp.block_median_time header.parentHash with
  | none => .error (.UnknownParent header.parentHash)
  | some min =>
    if header.timestamp ≤ min then
      .error (.Timestamp (.BlockTimeTooEarly min header.timestamp))
    else if header.timestamp > now + ALLOWED_FUTURE_BLOCKTIME then
      .error (.Timestamp (.BlockTimeTooNew (now + ALLOWED_FUTURE_BLOCKTIME) header.timestamp))
    else
      .ok ()

/-- `DifficultyVerifier::verify`: compares the resolver's expected difficulty
with the header field. -/
def DifficultyVerifier.verify (t : HeaderResolverM) : Except VerifyError Unit :=
  match t.calculate_difficulty with
  | none => .error (.Difficulty .AncestorNotFound)
  | some expected =>
    if expected ≠ t.header.difficulty then
      .error (.Difficulty (.MixMismatch expected t.header.difficulty))
    else
      .ok ()

/-- `HeaderVerifier::verify`: PoW, parent resolution, number, timestamp,
difficulty, short-circuiting on the first error. -/
def HeaderVerifier.verify (pow : HeaderM → Bool) (cp : ChainProviderM) (now : Nat)
    (target : HeaderResolverM) : Except VerifyError Unit :=
  match PowVerifier.verify pow target.header with
  | .error e => .error e
  | .ok _ =>
    match target.parent with
    | none => .error (.UnknownParent target.header.parentHash)
    | some parent =>
      match NumberVerifier.verify parent target.header with
      | .error e => .error e
      | .ok _ =>
        match TimestampVerifier.verify cp now target.header with
        | .error e => .error e
        | .ok _ => DifficultyVerifier.verify target

/-! ## Complete Binary Merkle Tree

Modelled from the spec (section 4.1): the CBMT implementation lives in
`ckb_types::utilities` / the merkle tree crate, which is not among the
sources.  The tree over `N` leaves has nodes indexed `0 .. 2N-1`; internal
node `i` has children `2i+1` and `2i+2`; leaves occupy `[N-1, 2N-1)`; the
root is node `0`. -/

/-- Value of tree node `i` over the given leaves, with explicit recursion
fuel so that the kernel can evaluate it.  A node `i` with `i ≥ N-1` is the
leaf at position `i - (N-1)`; an internal node hashes its two children. -/
def nodeValF (h2 : Hash2) (leaves : List Nat) : Nat → Nat → Nat
  | 0, _ => 0
  | fuel + 1, i =>
    if leaves.length ≤ i + 1 then
      leaves.getD (i + 1 - leaves.length) 0
    else
      h2 (nodeValF h2 leaves fuel (2 * i + 1)) (nodeValF h2 leaves fuel (2 * i + 2))

/-- Value of tree node `i`; `2 * N` fuel always suffices. -/
def nodeVal (h2 : Hash2) (leaves : List Nat) (i : Nat) : Nat :=
  nodeValF h2 leaves (2 * leaves.length) i

/-- CBMT root: zero hash for zero leaves, otherwise the value of node `0`
(which is the single leaf itself when `N = 1`). -/
def cbmtRoot (h2 : Hash2) (leaves : List Nat) : Nat :=
  if leaves.length = 0 then 0 else nodeVal h2 leaves 0

/-- Sibling of tree node `i` (left children have odd index). -/
def siblingIdx (i : Nat) : Nat := if i % 2 = 1 then i + 1 else i - 1

/-- Parent of tree node `i`. -/
def parentIdx (i : Nat) : Nat := (i - 1) / 2

/-- Build-side peel (spec section 4.1): the queue holds tree indices of the
included leaves in descending order; pop the current node, pair it with its
sibling when the sibling is also queued, otherwise record the sibling's hash
as a lemma, and push the parent. -/
def peel (h2 : Hash2) (leaves : List Nat) (queue : List Nat) : List Nat :=
  match queue with
  | [] => []
  | i :: rest =>
    if _h0 : i = 0 then []
    else
      match rest with
      | [] => nodeVal h2 leaves (siblingIdx i) :: peel h2 leaves [parentIdx i]
      | j :: rest2 =>
        if j = siblingIdx i then
          peel h2 leaves (rest2 ++ [parentIdx i])
        else
          nodeVal h2 leaves (siblingIdx i) :: peel h2 leaves ((j :: rest2) ++ [parentIdx i])
termination_by queue.sum
decreasing_by
  all_goals simp [List.sum_append, parentIdx]
  all_goals omega

/-- Order the combination of a node with its sibling: odd indices are left
children, so their hash goes first. -/
def combineAt (h2 : Hash2) (i cur sib : Nat) : Nat :=
  if i % 2 = 1 then h2 cur sib else h2 sib cur

/-- Verify-side peel (spec sections 4.1 and 4.7): reconstruct the root from a
descending queue of `(tree index, hash)` pairs, consuming lemmas whenever a
sibling is not itself queued.  Fails when a lemma is missing or left over. -/
def proofRootAux (h2 : Hash2) (lemmas : List Nat) (queue : List (Nat × Nat)) :
    Option Nat :=
  match queue with
  | [] => none
  | (i, v) :: rest =>
    if _h0 : i = 0 then
      if rest = [] ∧ lemmas = [] then some v else none
    else
      match rest with
      | [] =>
        match lemmas with
        | [] => none
        | l :: ls => proofRootAux h2 ls [(parentIdx i, combineAt h2 i v l)]
      | (j, w) :: rest2 =>
        if j = siblingIdx i then
          proofRootAux h2 lemmas (rest2 ++ [(parentIdx i, combineAt h2 i v w)])
        else
          match lemmas with
          | [] => none
          | l :: ls =>
            proofRootAux h2 ls (((j, w) :: rest2) ++ [(parentIdx i, combineAt h2 i v l)])
termination_by (queue.map Prod.fst).sum
decreasing_by
  all_goals simp [List.sum_append, List.map_append, parentIdx]
  all_goals omega

/-- Insert into a descending list of naturals. -/
def insertDescNat (x : Nat) : List Nat → List Nat
  | [] => [x]
  | y :: rest => if y ≤ x then x :: y :: rest else y :: insertDescNat x rest

/-- Sort a list of naturals in descending order. -/
def sortDescNat (l : List Nat) : List Nat := l.foldr insertDescNat []

/-- Insert into a list of pairs descending on the first component. -/
def insertDescPair (x : Nat × Nat) : List (Nat × Nat) → List (Nat × Nat)
  | [] => [x]
  | y :: rest => if y.1 ≤ x.1 then x :: y :: rest else y :: insertDescPair x rest

/-- Sort pairs in descending order of their first component. -/
def sortDescPairs (l : List (Nat × Nat)) : List (Nat × Nat) :=
  l.foldr insertDescPair []

/-- `MerkleProof { indices, lemmas }`: tree indices of the included leaves
(in the order the caller supplied them) and the recorded sibling hashes. -/
structure MerkleProofM where
  indices : List Nat
  lemmas : List Nat
deriving DecidableEq

/-- `CBMT::build_merkle_proof` (spec section 4.1): convert the supplied leaf
positions to tree indices and peel the descending queue. -/
def buildMerkleProof (h2 : Hash2) (leaves : List Nat) (leafIndices : List Nat) :
    MerkleProofM :=
  let tis := leafIndices.map (fun i => i + (leaves.length - 1))
  { indices := tis, lemmas := peel h2 leaves (sortDescNat tis) }

/-- `CBMT::retrieve_leaves` (spec section 4.7 step 2): read the leaves at the
proof's tree indices, failing on an empty proof or an out-of-range index. -/
def retrieveLeaves (leaves : List Nat) (proof : MerkleProofM) : Option (List Nat) :=
  if leaves = [] ∨ proof.indices = [] then none
  else if proof.indices.all (fun ti =>
      decide (leaves.length - 1 ≤ ti) && decide (ti < 2 * leaves.length - 1)) then
    some (proof.indices.map (fun ti => leaves.getD (ti + 1 - leaves.length) 0))
  else none

/-- `MerkleProof::root` (spec section 4.7 step 3): rebuild the root from the
supplied leaves following the same descending peel order as the build. -/
def merkleProofRoot (h2 : Hash2) (proof : MerkleProofM) (leaves : List Nat) :
    Option Nat :=
  if proof.indices.length = leaves.length ∧ proof.indices ≠ [] then
    proofRootAux h2 proof.lemmas (sortDescPairs (proof.indices.zip leaves))
  else none

/-! ## Chain query RPC surface (rpc/src/module/chain.rs) -/

/-- The error codes surfaced by the chain RPC module. -/
inductive RPCError where
  | invalid_params (msg : String)
  | chain_index_is_inconsistent
  | internal_error
deriving DecidableEq

/-- `TransactionInfo { block_hash, index }` as returned by
`Snapshot::get_transaction_info`. -/
structure TransactionInfoM where
  block_hash : H256
  index : Nat
deriving DecidableEq

/-- The block fields consumed by the transaction-proof endpoints: the ordered
transaction hashes, the two-level transactions root committed in the header,
the witnesses root (`calc_witnesses_root`), and the block hash. -/
structure RpcBlockM where
  tx_hashes : List Nat
  transactions_root : Nat
  witnesses_root : Nat
  hash : H256
deriving DecidableEq

/-- The snapshot lookups consumed by the transaction-proof endpoints. -/
structure RpcSnapshotM where
  get_transaction_info : H256 → Option TransactionInfoM
  get_block : H256 → Option RpcBlockM

/-- `TransactionProof { block_hash, witnesses_root, proof }`. -/
structure TransactionProofM where
  block_hash : H256
  witnesses_root : Nat
  proof : MerkleProofM
deriving DecidableEq

/-- The resolution loop of `get_transaction_proof`: look up every hash,
require a single shared block hash, reject duplicated indices (the `HashSet`
insert), and accumulate the indices in insertion order. -/
def resolveTxInfos (s : RpcSnapshotM) (txs : List H256) (retrieved : Option H256)
    (acc : List Nat) : Except RPCError (Option H256 × List Nat) :=
  match txs with
  | [] => .ok (retrieved, acc)
  | h :: rest =>
    match s.get_transaction_info h with
    | none => .error (.invalid_params "Transaction not yet in block")
    | some info =>
      if retrieved = none ∨ retrieved = some info.block_hash then
        if info.index ∈ acc then .error (.invalid_params "Duplicated tx_hash")
        else resolveTxInfos s rest (some info.block_hash) (acc ++ [info.index])
      else .error (.invalid_params "Not all transactions found in retrieved block")

/-- Tail of `get_transaction_proof`: load the block and build the CBMT proof
over its transaction hashes from the resolved indices. -/
def buildProofFromBlock (h2 : Hash2) (s : RpcSnapshotM) (setIter : List Nat → List Nat)
    (rbh : H256) (idxs : List Nat) : Except RPCError TransactionProofM :=
  match s.get_block rbh with
  | none => .error .chain_index_is_inconsistent
  | some block =>
    .ok { block_hash := block.hash,
          witnesses_root := block.witnesses_root,
          proof := buildMerkleProof h2 block.tx_hashes (setIter idxs) }

/-- `ChainRpcImpl::get_transaction_proof`.  The indices are collected into a
`HashSet` whose iteration order is unspecified; `setIter` models that
enumeration (theorems quantify over all permutations). -/
def get_transaction_proof (h2 : Hash2) (s : RpcSnapshotM)
    (setIter : List Nat → List Nat) (tx_hashes : List H256)
    (block_hash : Option H256) : Except RPCError TransactionProofM :=
  if tx_hashes = [] then .error (.invalid_params "Empty transaction hashes")
  else
    match resolveTxInfos s tx_hashes none [] with
    | .error e => .error e
    | .ok (retrieved, idxs) =>
      match retrieved with
      | none => .error (.invalid_params "Empty transaction hashes")
      | some rbh =>
        match block_hash with
        | some specified =>
          if rbh ≠ specified then
            .error (.invalid_params "Not all transactions found in specified block")
          else buildProofFromBlock h2 s setIter rbh idxs
        | none => buildProofFromBlock h2 s setIter rbh idxs

/-- `ChainRpcImpl::verify_transaction_proof`: load the block, retrieve the
leaves at the proof indices, rebuild the raw transactions root, and compare
the two-level root with the header commitment. -/
def verify_transaction_proof (h2 : Hash2) (s : RpcSnapshotM)
    (tp : TransactionProofM) : Except RPCError (List Nat) :=
  match s.get_block tp.block_hash with
  | none => .error (.invalid_params "Cannot find block")
  | some block =>
    match retrieveLeaves block.tx_hashes tp.proof with
    | none => .error (.invalid_params "Invalid transaction proof")
    | some leaves =>
      match merkleProofRoot h2 tp.proof leaves with
      | none => .error (.invalid_params "Invalid transaction proof")
      | some raw =>
        if block.transactions_root = cbmtRoot h2 [raw, tp.witnesses_root] then
          .ok leaves
        else .error (.invalid_params "Invalid transaction proof")

/-! ## get_transaction (rpc/src/module/chain.rs) -/

/-- `TransactionWithStatus` status values. -/
inductive TxStatus where
  | pending
  | proposed
  | committed (block_hash : H256)
deriving DecidableEq

/-- A transaction paired with its reported status. -/
structure TransactionWithStatusM where
  tx : Nat
  status : TxStatus
deriving DecidableEq

/-- The environment of one `get_transaction` call: the pool's response for the
queried hash and the snapshot's committed-transaction lookup for it. -/
structure GetTxEnv where
  fetch_tx_for_rpc : Except String (Option (Bool × Nat))
  snapshot_get_transaction : Option (Nat × H256)

/-- `ChainRpcImpl::get_transaction`: consult the pool first (Proposed/Pending),
fall back to the snapshot (Committed). -/
def get_transaction (env : GetTxEnv) :
    Except RPCError (Option TransactionWithStatusM) :=
  match env.fetch_tx_for_rpc with
  | .error _ => .error .internal_error
  | .ok poolTx =>
    let tx := poolTx.map (fun pt =>
      if pt.1 then TransactionWithStatusM.mk pt.2 .proposed
      else TransactionWithStatusM.mk pt.2 .pending)
    .ok (match tx with
      | some t => some t
      | none =>
        env.snapshot_get_transaction.map (fun p =>
          TransactionWithStatusM.mk p.1 (.committed p.2)))

/-! ## get_block_economic_state (rpc/src/module/chain.rs) -/

/-- Maximum capacity value: `Capacity` is a u64 shannon count. -/
def U64_MAX : Nat := 2 ^ 64 - 1

/-- `Capacity::safe_add`: checked addition, `none` on overflow. -/
def safeAdd (a b : Nat) : Option Nat :=
  if a + b ≤ U64_MAX then some (a + b) else none

/-- The `try_fold(Capacity::zero(), safe_add)` over `block_ext.txs_fees`. -/
def sumTxsFees (fees : List Nat) : Option Nat :=
  fees.foldlM safeAdd 0

/-- The per-epoch data consumed by `get_block_economic_state`, with the two
issuance computations kept abstract (`ckb_types::core::EpochExt` is not among
the sources). -/
structure EpochExtM where
  block_reward : Nat → Option Nat
  secondary_block_issuance : Nat → Nat → Option Nat

/-- `BlockExt` restricted to its `txs_fees` field. -/
structure BlockExtM where
  txs_fees : List Nat

/-- `BlockIssuance { primary, secondary }`. -/
structure BlockIssuanceM where
  primary : Nat
  secondary : Nat
deriving DecidableEq

/-- `BlockEconomicState` with the miner reward kept abstract. -/
structure BlockEconomicStateM where
  issuance : BlockIssuanceM
  miner_reward : Nat
  txs_fee : Nat
  finalized_at : H256
deriving DecidableEq

/-- The snapshot lookups consumed by `get_block_economic_state`; the external
`RewardCalculator::block_reward_for_target` is abstracted as a lookup keyed by
the header (identified by its block hash). -/
structure EconSnapshot where
  get_block_number : H256 → Option Nat
  tip_number : Nat
  finalization_delay_length : Nat
  get_block_hash : Nat → Option H256
  get_block_epoch_index : H256 → Option H256
  get_epoch_ext : H256 → Option EpochExtM
  secondary_epoch_reward : Nat
  get_block_ext : H256 → Option BlockExtM
  get_block_header : H256 → Option Nat
  block_reward_for_target : Nat → Option Nat

/-- `ChainRpcImpl::get_block_economic_state`. -/
def get_block_economic_state (s : EconSnapshot) (hash : H256) :
    Except RPCError (Option BlockEconomicStateM) :=
  match s.get_block_number hash with
  | none => .ok none
  | some block_number =>
    if block_number = 0 ∨
        s.tip_number < block_number + s.finalization_delay_length then .ok none
    else
      match s.get_block_hash (block_number + s.finalization_delay_length) with
      | none => .ok none
      | some finalized_at =>
        match (s.get_block_epoch_index hash).bind s.get_epoch_ext |>.bind
            (fun epoch_ext =>
              (epoch_ext.block_reward block_number).bind (fun primary =>
                (epoch_ext.secondary_block_issuance block_number
                    s.secondary_epoch_reward).map
                  (fun secondary => BlockIssuanceM.mk primary secondary))) with
        | none => .ok none
        | some issuance =>
          match (s.get_block_ext hash).bind (fun be => sumTxsFees be.txs_fees) with
          | none => .ok none
          | some txs_fee =>
            .ok ((s.get_block_header hash).bind (fun hdr =>
              (s.block_reward_for_target hdr).map (fun mr =>
                ⟨issuance, mr, txs_fee, finalized_at⟩)))

/-! ## get_cells_by_lock_hash (rpc/src/module/chain.rs) -/

/-- `PAGE_SIZE` from rpc/src/module/chain.rs. -/
def PAGE_SIZE : Nat := 100

/-- A transaction output as scanned by `get_cells_by_lock_hash`. -/
structure CellOutputM where
  lock_hash : H256
  capacity : Nat
  data_len : Nat
deriving DecidableEq

/-- A transaction inside a scanned block. -/
structure ScanTxM where
  hash : H256
  outputs : List CellOutputM
deriving DecidableEq

/-- A block as scanned by `get_cells_by_lock_hash`. -/
structure ScanBlockM where
  transactions : List ScanTxM
deriving DecidableEq

/-- `TransactionMeta`: per-output dead bits and the cellbase flag;
`is_dead i` is `none` out of range. -/
structure TxMetaM where
  dead : List Bool
  is_cellbase : Bool
deriving DecidableEq

/-- `CellOutputWithOutPoint` restricted to the fields the claims mention. -/
structure CellOutputWithOutPointM where
  tx_hash : H256
  index : Nat
  block_hash : H256
  capacity : Nat
  output_data_len : Nat
  cellbase : Bool
deriving DecidableEq

/-- The snapshot lookups consumed by `get_cells_by_lock_hash`. -/
structure CellSnapshot where
  get_block_hash : Nat → Option H256
  get_block : H256 → Option ScanBlockM
  get_tx_meta : H256 → Option TxMetaM

/-- The inner output loop: emit one entry per output whose lock hash matches
and whose dead bit is `some false`. -/
def scanTxOutputs (lock_hash : H256) (block_hash : H256) (meta : TxMetaM)
    (tx : ScanTxM) : List CellOutputWithOutPointM :=
  (tx.outputs.enum.filterMap (fun oi =>
    if oi.2.lock_hash = lock_hash ∧ meta.dead[oi.1]? = some false then
      some ⟨tx.hash, oi.1, block_hash, oi.2.capacity, oi.2.data_len,
            meta.is_cellbase⟩
    else none))

/-- The per-block transaction loop: transactions without a tx meta entry are
skipped. -/
def scanBlockTxs (s : CellSnapshot) (lock_hash : H256) (block_hash : H256)
    (block : ScanBlockM) : List CellOutputWithOutPointM :=
  block.transactions.flatMap (fun tx =>
    match s.get_tx_meta tx.hash with
    | none => []
    | some meta => scanTxOutputs lock_hash block_hash meta tx)

/-- The block-number loop of `get_cells_by_lock_hash`: a missing main-chain
hash terminates the scan (the `break`); a hash whose block is missing from
storage is a fatal index inconsistency. -/
def scanRange (s : CellSnapshot) (lock_hash : H256) :
    List Nat → Except RPCError (List CellOutputWithOutPointM)
  | [] => .ok []
  | n :: rest =>
    match s.get_block_hash n with
    | none => .ok []
    | some block_hash =>
      match s.get_block block_hash with
      | none => .error .chain_index_is_inconsistent
      | some block =>
        match scanRange s lock_hash rest with
        | .error e => .error e
        | .ok tail => .ok (scanBlockTxs s lock_hash block_hash block ++ tail)

/-- The inclusive range `fr ..= toN` of block numbers. -/
def rangeInclusive (fr toN : Nat) : List Nat :=
  (List.range (toN + 1 - fr)).map (fun k => k + fr)

/-- `ChainRpcImpl::get_cells_by_lock_hash`: validate the page bounds, then
scan every main-chain block in the inclusive range. -/
def get_cells_by_lock_hash (s : CellSnapshot) (lock_hash : H256) (fr toN : Nat) :
    Except RPCError (List CellOutputWithOutPointM) :=
  if fr > toN then
    .error (.invalid_params "Expected from <= to in params")
  else if toN - fr > PAGE_SIZE then
    .error (.invalid_params "Expected to - from <= PAGE_SIZE in params")
  else scanRange s lock_hash (rangeInclusive fr toN)

/-! ## Old-core block commitment check (core/src/block.rs) -/

/-- A transaction of the old core, identified by its stable hash. -/
structure CoreTransaction where
  hash : H256
deriving DecidableEq

/-- The old-core header restricted to its `txs_commit` field. -/
structure CoreHeader where
  txs_commit : Nat
deriving DecidableEq

/-- The old-core error variant produced by `check_txs_root`. -/
inductive CoreError where
  | InvalidTransactionsRoot (expected actual : Nat)
deriving DecidableEq

/-- `Block { header, transactions }` of the old core. -/
structure CoreBlock where
  header : CoreHeader
  transactions : List CoreTransaction
deriving DecidableEq

/-- `Block::check_txs_root`: recompute the merkle root of the transaction
hashes (modelled from the spec as the CBMT root, the `merkle_root` crate not
being among the sources) and compare it with `header.txs_commit`. -/
def CoreBlock.check_txs_root (h2 : Hash2) (b : CoreBlock) :
    Except CoreError Unit :=
  let txs_hash := b.transactions.map CoreTransaction.hash
  let txs_root := cbmtRoot h2 txs_hash
  if txs_root = b.header.txs_commit then .ok ()
  else .error (.InvalidTransactionsRoot b.header.txs_commit txs_root)

/-! ## Concrete instances used to exercise the theorems -/

/-- A concrete combining hash for concrete evaluations. -/
def h2c : Hash2 := fun a b => 100 * a + b + 1

/-- A concrete block with two transactions (hashes 5 and 7), witnesses root 9,
block hash 3, and a consistent two-level transactions root. -/
def Bc : RpcBlockM :=
  { tx_hashes := [5, 7],
    transactions_root := cbmtRoot h2c [cbmtRoot h2c [5, 7], 9],
    witnesses_root := 9,
    hash := 3 }

/-- A concrete snapshot indexing the two transactions of `Bc`. -/
def sC : RpcSnapshotM :=
  { get_transaction_info := fun h =>
      if h = 5 then some ⟨3, 0⟩ else if h = 7 then some ⟨3, 1⟩ else none,
    get_block := fun bh => if bh = 3 then some Bc else none }

/-- The transaction proof `get_transaction_proof` produces over `sC` when the
hash set enumerates the resolved indices in reverse insertion order. -/
def tpRevC : TransactionProofM :=
  { block_hash := 3, witnesses_root := 9,
    proof := buildMerkleProof h2c [5, 7] [1, 0] }

/-- The transaction proof `get_transaction_proof` produces over `sC` when the
hash set enumerates the resolved indices in insertion order. -/
def tpIdC : TransactionProofM :=
  { block_hash := 3, witnesses_root := 9,
    proof := buildMerkleProof h2c [5, 7] [0, 1] }

/-- A concrete economic-state snapshot: block hash 40 at number 100, delay 11,
tip 111, finalized-at hash 41, with small concrete rewards and fees. -/
def sE : EconSnapshot :=
  { get_block_number := fun h => if h = 40 then some 100 else none,
    tip_number := 111,
    finalization_delay_length := 11,
    get_block_hash := fun n => if n = 111 then some 41 else none,
    get_block_epoch_index := fun h => if h = 40 then some 1 else none,
    get_epoch_ext := fun e =>
      if e = 1 then
        some ⟨fun _ => some 50, fun _ _ => some 6⟩
      else none,
    secondary_epoch_reward := 6,
    get_block_ext := fun h => if h = 40 then some ⟨[1, 2, 3]⟩ else none,
    get_block_header := fun h => if h = 40 then some 40 else none,
    block_reward_for_target := fun hdr => if hdr = 40 then some 77 else none }

/-- A concrete cell-scan snapshot: block number 10 has hash 7 and contains one
transaction (hash 20) with a single live output under lock hash 55. -/
def sCell : CellSnapshot :=
  { get_block_hash := fun n => if n = 10 then some 7 else none,
    get_block := fun h =>
      if h = 7 then some ⟨[⟨20, [⟨55, 1000, 4⟩]⟩]⟩ else none,
    get_tx_meta := fun h => if h = 20 then some ⟨[false], false⟩ else none }

/-! ## CBMT helper lemmas -/

/-- `nodeValF` does not depend on the fuel once the fuel covers the distance
from node `i` to the bottom of the tree. -/
theorem nodeValF_congr (h2 : Hash2) (leaves : List Nat) :
    ∀ f1 f2 i : Nat, 2 * leaves.length - 1 - i ≤ f1 →
      2 * leaves.length - 1 - i ≤ f2 → 1 ≤ f1 → 1 ≤ f2 →
      nodeValF h2 leaves f1 i = nodeValF h2 leaves f2 i := by
  intro f1
  induction f1 with
  | zero => intro f2 i _ _ h3 _; omega
  | succ f ih =>
    intro f2 i hb1 hb2 _ h4
    match f2, h4 with
    | g + 1, _ =>
      simp only [nodeValF]
      by_cases hleaf : leaves.length ≤ i + 1
      · rw [if_pos hleaf, if_pos hleaf]
      · rw [if_neg hleaf, if_neg hleaf]
        have hiL : i + 1 < leaves.length := by omega
        congr 1
        · exact ih g (2 * i + 1) (by omega) (by omega) (by omega) (by omega)
        · exact ih g (2 * i + 2) (by omega) (by omega) (by omega) (by omega)

/-- One-step unfolding of `nodeVal` for a non-empty tree. -/
theorem nodeVal_eq (h2 : Hash2) (leaves : List Nat) (i : Nat)
    (hL : 1 ≤ leaves.length) :
    nodeVal h2 leaves i =
      if leaves.length ≤ i + 1 then leaves.getD (i + 1 - leaves.length) 0
      else h2 (nodeVal h2 leaves (2 * i + 1)) (nodeVal h2 leaves (2 * i + 2)) := by
  unfold nodeVal
  obtain ⟨m, hm⟩ : ∃ m, 2 * leaves.length = m + 1 := ⟨2 * leaves.length - 1, by omega⟩
  rw [hm]
  show (if leaves.length ≤ i + 1 then leaves.getD (i + 1 - leaves.length) 0
      else h2 (nodeValF h2 leaves m (2 * i + 1)) (nodeValF h2 leaves m (2 * i + 2))) = _
  by_cases hleaf : leaves.length ≤ i + 1
  · rw [if_pos hleaf, if_pos hleaf]
  · rw [if_neg hleaf, if_neg hleaf]
    have c1 : nodeValF h2 leaves m (2 * i + 1) = nodeValF h2 leaves (m + 1) (2 * i + 1) :=
      nodeValF_congr h2 leaves m (m + 1) (2 * i + 1)
        (by omega) (by omega) (by omega) (by omega)
    have c2 : nodeValF h2 leaves m (2 * i + 2) = nodeValF h2 leaves (m + 1) (2 * i + 2) :=
      nodeValF_congr h2 leaves m (m + 1) (2 * i + 2)
        (by omega) (by omega) (by omega) (by omega)
    rw [c1, c2]

/-- A node in leaf position evaluates to the corresponding leaf. -/
theorem nodeVal_leaf (h2 : Hash2) (leaves : List Nat) (i : Nat)
    (hL : 1 ≤ leaves.length) (hle : leaves.length ≤ i + 1) :
    nodeVal h2 leaves i = leaves.getD (i + 1 - leaves.length) 0 := by
  rw [nodeVal_eq h2 leaves i hL, if_pos hle]

/-- The parent of the current node combines the node with its sibling in
child order. -/
theorem nodeVal_parent (h2 : Hash2) (leaves : List Nat) (ti : Nat)
    (h0 : ti ≠ 0) (hlt : ti < 2 * leaves.length - 1) :
    nodeVal h2 leaves (parentIdx ti) =
      combineAt h2 ti (nodeVal h2 leaves ti) (nodeVal h2 leaves (siblingIdx ti)) := by
  have hL : 1 ≤ leaves.length := by omega
  have hp : ¬ (leaves.length ≤ parentIdx ti + 1) := by
    simp only [parentIdx]; omega
  rw [nodeVal_eq h2 leaves (parentIdx ti) hL, if_neg hp]
  rcases (by omega : ti % 2 = 1 ∨ ti % 2 = 0) with hodd | heven
  · have e1 : 2 * parentIdx ti + 1 = ti := by simp only [parentIdx]; omega
    have e2 : 2 * parentIdx ti + 2 = ti + 1 := by simp only [parentIdx]; omega
    have es : siblingIdx ti = ti + 1 := by simp only [siblingIdx]; rw [if_pos hodd]
    simp only [combineAt, if_pos hodd, e1, e2, es]
  · have hodd' : ¬ (ti % 2 = 1) := by omega
    have e1 : 2 * parentIdx ti + 1 = ti - 1 := by simp only [parentIdx]; omega
    have e2 : 2 * parentIdx ti + 2 = ti := by simp only [parentIdx]; omega
    have es : siblingIdx ti = ti - 1 := by simp only [siblingIdx]; rw [if_neg hodd']
    simp only [combineAt, if_neg hodd', e1, e2, es]

/-- The parent index is strictly below the node index. -/
theorem parentIdx_lt (ti : Nat) (h0 : ti ≠ 0) : parentIdx ti < ti := by
  simp only [parentIdx]; omega

/-- Single-leaf soundness of the peel: feeding the path lemmas produced by
`peel` back into the verify-side reconstruction yields the tree root. -/
theorem proofRootAux_single (h2 : Hash2) (leaves : List Nat) :
    ∀ ti, ti < 2 * leaves.length - 1 →
      proofRootAux h2 (peel h2 leaves [ti]) [(ti, nodeVal h2 leaves ti)] =
        some (nodeVal h2 leaves 0) := by
  intro ti
  induction ti using Nat.strong_induction_on with
  | _ ti ih =>
    intro hlt
    by_cases h0 : ti = 0
    · subst h0
      rw [peel.eq_def, proofRootAux.eq_def]
      simp
    · rw [peel.eq_def]
      simp only [dif_neg h0]
      rw [proofRootAux.eq_def]
      simp only [dif_neg h0]
      rw [← nodeVal_parent h2 leaves ti h0 hlt]
      exact ih (parentIdx ti) (parentIdx_lt ti h0) (by have := parentIdx_lt ti h0; omega)

/-! ## Claim C1 -/

/-- C1: for every transaction hash `h` committed on the main chain of the
snapshot (the snapshot resolves `h` to a block that contains it and whose
header commits to the two-level transactions root), `verify_transaction_proof`
applied to the result of `get_transaction_proof [h] none` succeeds and returns
exactly `[h]`. -/
theorem get_transaction_proof_roundtrip
    (h2 : Hash2) (s : RpcSnapshotM) (setIter : List Nat → List Nat)
    (h bh i : Nat) (B : RpcBlockM)
    (hiter : ∀ l, (setIter l).Perm l)
    (hinfo : s.get_transaction_info h = some ⟨bh, i⟩)
    (hblock : s.get_block bh = some B)
    (hhash : B.hash = bh)
    (hi : i < B.tx_hashes.length)
    (hleaf : B.tx_hashes.getD i 0 = h)
    (hroot : B.transactions_root =
      cbmtRoot h2 [cbmtRoot h2 B.tx_hashes, B.witnesses_root]) :
    (get_transaction_proof h2 s setIter [h] none).bind
      (verify_transaction_proof h2 s) = .ok [h] := by
  have hL : 1 ≤ B.tx_hashes.length := by omega
  have hres : resolveTxInfos s [h] none [] = .ok (some bh, [i]) := by
    simp [resolveTxInfos, hinfo]
  have hsi : setIter [i] = [i] := List.perm_singleton.mp (hiter [i])
  have hbp : buildProofFromBlock h2 s setIter bh [i] =
      Except.ok ⟨B.hash, B.witnesses_root,
        ⟨[i + (B.tx_hashes.length - 1)],
          peel h2 B.tx_hashes [i + (B.tx_hashes.length - 1)]⟩⟩ := by
    unfold buildProofFromBlock
    rw [hblock]
    unfold buildMerkleProof
    rw [hsi]
    simp [sortDescNat, insertDescNat]
  have hget : get_transaction_proof h2 s setIter [h] none =
      Except.ok ⟨B.hash, B.witnesses_root,
        ⟨[i + (B.tx_hashes.length - 1)],
          peel h2 B.tx_hashes [i + (B.tx_hashes.length - 1)]⟩⟩ := by
    unfold get_transaction_proof
    rw [if_neg (by simp), hres]
    exact hbp
  rw [hget]
  show verify_transaction_proof h2 s
      ⟨B.hash, B.witnesses_root,
        ⟨[i + (B.tx_hashes.length - 1)],
          peel h2 B.tx_hashes [i + (B.tx_hashes.length - 1)]⟩⟩ = .ok [h]
  have hnv : nodeVal h2 B.tx_hashes (i + (B.tx_hashes.length - 1)) = h := by
    rw [nodeVal_leaf h2 B.tx_hashes (i + (B.tx_hashes.length - 1)) hL (by omega)]
    rw [show i + (B.tx_hashes.length - 1) + 1 - B.tx_hashes.length = i from by omega]
    exact hleaf
  have hret : retrieveLeaves B.tx_hashes
      ⟨[i + (B.tx_hashes.length - 1)],
        peel h2 B.tx_hashes [i + (B.tx_hashes.length - 1)]⟩ = some [h] := by
    unfold retrieveLeaves
    rw [if_neg (by
      simp only [not_or]
      constructor
      · intro he; rw [he] at hL; simp at hL
      · simp)]
    rw [if_pos (by
      simp only [List.all_cons, List.all_nil, Bool.and_true, Bool.and_eq_true,
        decide_eq_true_eq]
      omega)]
    show some (List.map (fun ti => B.tx_hashes.getD (ti + 1 - B.tx_hashes.length) 0)
      [i + (B.tx_hashes.length - 1)]) = some [h]
    simp only [List.map_cons, List.map_nil]
    rw [show i + (B.tx_hashes.length - 1) + 1 - B.tx_hashes.length = i from by omega]
    rw [hleaf]
  have hmr : merkleProofRoot h2
      ⟨[i + (B.tx_hashes.length - 1)],
        peel h2 B.tx_hashes [i + (B.tx_hashes.length - 1)]⟩ [h] =
      some (nodeVal h2 B.tx_hashes 0) := by
    unfold merkleProofRoot
    rw [if_pos (by simp)]
    show proofRootAux h2 (peel h2 B.tx_hashes [i + (B.tx_hashes.length - 1)])
      (sortDescPairs [(i + (B.tx_hashes.length - 1), h)]) = _
    rw [show sortDescPairs [(i + (B.tx_hashes.length - 1), h)] =
      [(i + (B.tx_hashes.length - 1), h)] from rfl]
    rw [← hnv]
    exact proofRootAux_single h2 B.tx_hashes (i + (B.tx_hashes.length - 1)) (by omega)
  unfold verify_transaction_proof
  rw [show (⟨B.hash, B.witnesses_root,
      ⟨[i + (B.tx_hashes.length - 1)],
        peel h2 B.tx_hashes [i + (B.tx_hashes.length - 1)]⟩⟩ :
      TransactionProofM).block_hash = bh from hhash]
  rw [hblock]
  simp only [hret, hmr]
  have hcb : cbmtRoot h2 B.tx_hashes = nodeVal h2 B.tx_hashes 0 := by
    unfold cbmtRoot
    rw [if_neg (by omega)]
  rw [if_pos (show B.transactions_root =
    cbmtRoot h2 [nodeVal h2 B.tx_hashes 0, B.witnesses_root] from by rw [hroot, hcb])]

/-- C1 witness: the round trip evaluated on the concrete snapshot `sC` (block
`Bc`, transaction hash 7 at index 1), with the identity set enumeration. -/
theorem get_transaction_proof_roundtrip_witness :
    (get_transaction_proof h2c sC id [7] none).bind
      (verify_transaction_proof h2c sC) = .ok [7] :=
  get_transaction_proof_roundtrip h2c sC id 7 3 1 Bc
    (fun l => List.Perm.refl l) rfl rfl rfl (by decide) rfl rfl

/-! ## Claim C2 -/

/-- C2: `HeaderVerifier::verify` runs the sub-checks in the fixed order PoW,
parent resolution, number, timestamp, difficulty, returning the error of the
first failing check without running the later ones; when the PoW engine
rejects the header the result is `Pow(InvalidProof)` independently of the
resolver's parent (the parent is never resolved), and a missing parent yields
`UnknownParent(parent_hash)`. -/
theorem headerVerifier_verify_order (pow : HeaderM → Bool) (cp : ChainProviderM)
    (now : Nat) (t : HeaderResolverM) :
    (HeaderVerifier.verify pow cp now t =
      if pow t.header then
        match t.parent with
        | none => .error (.UnknownParent t.header.parentHash)
        | some p =>
          if t.header.number ≠ p.number + 1 then
            .error (.Number ⟨p.number + 1, t.header.number⟩)
          else
            match cp.block_median_time t.header.parentHash with
            | none => .error (.UnknownParent t.header.parentHash)
            | some min =>
              if t.header.timestamp ≤ min then
                .error (.Timestamp (.BlockTimeTooEarly min t.header.timestamp))
              else if t.header.timestamp > now + ALLOWED_FUTURE_BLOCKTIME then
                .error (.Timestamp
                  (.BlockTimeTooNew (now + ALLOWED_FUTURE_BLOCKTIME) t.header.timestamp))
              else
                match t.calculate_difficulty with
                | none => .error (.Difficulty .AncestorNotFound)
                | some expected =>
                  if expected ≠ t.header.difficulty then
                    .error (.Difficulty (.MixMismatch expected t.header.difficulty))
                  else .ok ()
      else .error (.Pow .InvalidProof))
    ∧ (pow t.header = false → ∀ parent diff,
        HeaderVerifier.verify pow cp now ⟨t.header, parent, diff⟩ =
          .error (.Pow .InvalidProof))
    ∧ (pow t.header = true → t.parent = none →
        HeaderVerifier.verify pow cp now t =
          .error (.UnknownParent t.header.parentHash)) := by
  refine ⟨?_, ?_, ?_⟩
  · unfold HeaderVerifier.verify PowVerifier.verify NumberVerifier.verify
      TimestampVerifier.verify DifficultyVerifier.verify
    cases hpow : pow t.header
    · simp
    · rcases hpar : t.parent with _ | p
      · simp [hpar]
      · by_cases hnum : t.header.number = p.number + 1
        · rcases hmed : cp.block_median_time t.header.parentHash with _ | min
          · simp [hpar, hnum, hmed]
          · by_cases hts1 : t.header.timestamp ≤ min
            · simp [hpar, hnum, hmed, hts1]
            · by_cases hts2 : t.header.timestamp > now + ALLOWED_FUTURE_BLOCKTIME
              · simp [hpar, hnum, hmed, hts1, hts2]
              · rcases hdiff : t.calculate_difficulty with _ | expected
                · simp [hpar, hnum, hmed, hts1, hts2, hdiff]
                · by_cases hde : expected = t.header.difficulty
                  · simp [hpar, hnum, hmed, hts1, hts2, hdiff, hde]
                  · simp [hpar, hnum, hmed, hts1, hts2, hdiff, hde]
        · simp [hpar, hnum]
  · intro hpow parent diff
    unfold HeaderVerifier.verify PowVerifier.verify
    simp [hpow]
  · intro hpow hpar
    unfold HeaderVerifier.verify PowVerifier.verify
    simp [hpow, hpar]

/-- C2 witness: on a header rejected by the PoW engine the verifier returns
`Pow(InvalidProof)` even though a parent and a difficulty are resolvable. -/
theorem headerVerifier_verify_order_witness :
    HeaderVerifier.verify (fun _ => false) ⟨fun _ => some 0⟩ 0
      ⟨⟨1, 2, 3, 4⟩, some ⟨0, 0, 2, 4⟩, some 4⟩ = .error (.Pow .InvalidProof) :=
  (headerVerifier_verify_order (fun _ => false) ⟨fun _ => some 0⟩ 0
      ⟨⟨1, 2, 3, 4⟩, some ⟨0, 0, 2, 4⟩, some 4⟩).2.1 rfl (some ⟨0, 0, 2, 4⟩) (some 4)

/-! ## Claim C3 -/

/-- C3: when the parent's median time `min` is available,
`TimestampVerifier::verify` rejects exactly the headers with
`timestamp ≤ min` (as `BlockTimeTooEarly{min, found}`) or
`timestamp > now + 15000` (as `BlockTimeTooNew{now+15000, found}`); a
timestamp equal to the median is rejected and a timestamp equal to
`now + 15000` is accepted. -/
theorem timestampVerifier_verify_bounds (cp : ChainProviderM) (now : Nat)
    (h : HeaderM) (min : Nat)
    (hmed : cp.block_median_time h.parentHash = some min) :
    (TimestampVerifier.verify cp now h = .ok () ↔
      min < h.timestamp ∧ h.timestamp ≤ now + ALLOWED_FUTURE_BLOCKTIME)
    ∧ (h.timestamp ≤ min →
        TimestampVerifier.verify cp now h =
          .error (.Timestamp (.BlockTimeTooEarly min h.timestamp)))
    ∧ (min < h.timestamp → now + ALLOWED_FUTURE_BLOCKTIME < h.timestamp →
        TimestampVerifier.verify cp now h =
          .error (.Timestamp
            (.BlockTimeTooNew (now + ALLOWED_FUTURE_BLOCKTIME) h.timestamp)))
    ∧ (h.timestamp = min →
        TimestampVerifier.verify cp now h =
          .error (.Timestamp (.BlockTimeTooEarly min h.timestamp)))
    ∧ (h.timestamp = now + ALLOWED_FUTURE_BLOCKTIME → min < h.timestamp →
        TimestampVerifier.verify cp now h = .ok ()) := by
  have hv : TimestampVerifier.verify cp now h =
      if h.timestamp ≤ min then
        .error (.Timestamp (.BlockTimeTooEarly min h.timestamp))
      else if h.timestamp > now + ALLOWED_FUTURE_BLOCKTIME then
        .error (.Timestamp
          (.BlockTimeTooNew (now + ALLOWED_FUTURE_BLOCKTIME) h.timestamp))
      else .ok () := by
    unfold TimestampVerifier.verify
    rw [hmed]
  refine ⟨?_, ?_, ?_, ?_, ?_⟩
  · rw [hv]
    constructor
    · intro hok
      by_cases hts1 : h.timestamp ≤ min
      · simp [hts1] at hok
      · by_cases hts2 : h.timestamp > now + ALLOWED_FUTURE_BLOCKTIME
        · simp [hts1, hts2] at hok
        · omega
    · intro hc
      obtain ⟨h1, h2'⟩ := hc
      rw [if_neg (by omega), if_neg (by omega)]
  · intro hle
    rw [hv, if_pos hle]
  · intro hgt1 hgt2
    rw [hv, if_neg (by omega), if_pos (by omega)]
  · intro heq
    rw [hv, if_pos (by omega)]
  · intro heq hgt
    rw [hv, if_neg (by omega), if_neg (by omega)]

/-- C3 witness: the spec's concrete scenario, median 1000000: a timestamp of
exactly 1000000 is rejected as too early. -/
theorem timestampVerifier_verify_bounds_witness :
    TimestampVerifier.verify ⟨fun _ => some 1000000⟩ 2000000 ⟨0, 1000000, 5, 1⟩ =
      .error (.Timestamp (.BlockTimeTooEarly 1000000 1000000)) :=
  (timestampVerifier_verify_bounds ⟨fun _ => some 1000000⟩ 2000000
      ⟨0, 1000000, 5, 1⟩ 1000000 rfl).2.2.2.1 rfl

/-! ## Claim C4 -/

/-- C4: `NumberVerifier(parent, header).verify()` succeeds exactly when
`header.number = parent.number + 1`, and otherwise returns
`Number{expected: parent.number + 1, actual: header.number}`. -/
theorem numberVerifier_verify_iff (parent header : HeaderM) :
    (NumberVerifier.verify parent header = .ok () ↔
      header.number = parent.number + 1)
    ∧ (header.number ≠ parent.number + 1 →
        NumberVerifier.verify parent header =
          .error (.Number ⟨parent.number + 1, header.number⟩)) := by
  unfold NumberVerifier.verify
  constructor
  · constructor
    · intro hok
      by_cases hn : header.number = parent.number + 1
      · exact hn
      · simp [hn] at hok
    · intro hn
      rw [if_neg (by simp [hn])]
  · intro hn
    rw [if_pos hn]

/-- C4 witness: the spec's concrete scenario, parent number 42 and header
number 44 yield `Number{expected: 43, actual: 44}`. -/
theorem numberVerifier_verify_iff_witness :
    NumberVerifier.verify ⟨0, 0, 42, 1⟩ ⟨0, 0, 44, 1⟩ =
      .error (.Number ⟨43, 44⟩) :=
  (numberVerifier_verify_iff ⟨0, 0, 42, 1⟩ ⟨0, 0, 44, 1⟩).2 (by decide)

/-! ## Claim C10 -/

/-- C10: when the chain provider has no median time for the parent hash,
`TimestampVerifier::verify` returns `UnknownParent(parent_hash)` (not a
`Timestamp` error), so the timestamp step can produce `UnknownParent`. -/
theorem timestampVerifier_verify_unknown_parent (cp : ChainProviderM)
    (now : Nat) (h : HeaderM)
    (hmed : cp.block_median_time h.parentHash = none) :
    TimestampVerifier.verify cp now h = .error (.UnknownParent h.parentHash) := by
  unfold TimestampVerifier.verify
  rw [hmed]

/-- C10 witness: a provider with no median data makes the timestamp verifier
report `UnknownParent` for the header's parent hash. -/
theorem timestampVerifier_verify_unknown_parent_witness :
    TimestampVerifier.verify ⟨fun _ => none⟩ 500 ⟨8, 100, 5, 1⟩ =
      .error (.UnknownParent 8) :=
  timestampVerifier_verify_unknown_parent ⟨fun _ => none⟩ 500 ⟨8, 100, 5, 1⟩ rfl

/-! ## Claim C5 -/

/-- C5: `Block::check_txs_root` succeeds exactly when the merkle root of the
transaction hashes in block order equals `header.txs_commit`; on mismatch the
error is `InvalidTransactionsRoot` with the header commitment as expected
value and the computed root as actual value. -/
theorem check_txs_root_iff (h2 : Hash2) (b : CoreBlock) :
    (CoreBlock.check_txs_root h2 b = .ok () ↔
      cbmtRoot h2 (b.transactions.map CoreTransaction.hash) = b.header.txs_commit)
    ∧ (cbmtRoot h2 (b.transactions.map CoreTransaction.hash) ≠ b.header.txs_commit →
        CoreBlock.check_txs_root h2 b =
          .error (.InvalidTransactionsRoot b.header.txs_commit
            (cbmtRoot h2 (b.transactions.map CoreTransaction.hash)))) := by
  have hv : CoreBlock.check_txs_root h2 b =
      if cbmtRoot h2 (b.transactions.map CoreTransaction.hash) =
          b.header.txs_commit then .ok ()
      else .error (.InvalidTransactionsRoot b.header.txs_commit
        (cbmtRoot h2 (b.transactions.map CoreTransaction.hash))) := rfl
  constructor
  · rw [hv]
    constructor
    · intro hok
      by_cases he : cbmtRoot h2 (b.transactions.map CoreTransaction.hash) =
          b.header.txs_commit
      · exact he
      · rw [if_neg he] at hok
        exact absurd hok (by simp)
    · intro he
      rw [if_pos he]
  · intro he
    rw [hv, if_neg he]

/-- C5 witness: the spec's concrete scenario, a block with transaction hashes
1 and 2 whose header commits to `hash(1,1)` instead of the true root. -/
theorem check_txs_root_iff_witness :
    CoreBlock.check_txs_root h2c ⟨⟨h2c 1 1⟩, [⟨1⟩, ⟨2⟩]⟩ =
      .error (.InvalidTransactionsRoot (h2c 1 1) (cbmtRoot h2c [1, 2])) :=
  (check_txs_root_iff h2c ⟨⟨h2c 1 1⟩, [⟨1⟩, ⟨2⟩]⟩).2 (by decide)

/-! ## Claim C6 -/

/-- C6 counterexample: over the concrete snapshot `sC` (block with two
transactions at indices 0 and 1), the reverse set-iteration order — a
legitimate hash-set enumeration of the resolved indices — makes
`get_transaction_proof` hand the tree indices `[2, 1]` to the proof, which is
not ascending and differs from the proof produced under the insertion-order
enumeration, so the indices are not sorted before proof construction and the
proof is not a function of the transaction hashes and the block alone. -/
theorem get_transaction_proof_unsorted_cex :
    (List.reverse [0, 1]).Perm [0, 1]
    ∧ Except.map (fun tp => tp.proof.indices)
        (get_transaction_proof h2c sC List.reverse [5, 7] none) = .ok [2, 1]
    ∧ Except.map (fun tp => tp.proof.indices)
        (get_transaction_proof h2c sC id [5, 7] none) = .ok [1, 2]
    ∧ ¬ List.Sorted (fun a b => a ≤ b) [2, 1]
    ∧ Except.map (fun tp => tp.proof.indices)
        (get_transaction_proof h2c sC List.reverse [5, 7] none) ≠
      Except.map (fun tp => tp.proof.indices)
        (get_transaction_proof h2c sC id [5, 7] none) := by
  have e1 : Except.map (fun tp => tp.proof.indices)
      (get_transaction_proof h2c sC List.reverse [5, 7] none) = .ok [2, 1] := rfl
  have e2 : Except.map (fun tp => tp.proof.indices)
      (get_transaction_proof h2c sC id [5, 7] none) = .ok [1, 2] := rfl
  refine ⟨by decide, e1, e2, by decide, ?_⟩
  rw [e1, e2]
  simp

/-- Two successful runs of the proof-building tail under permutation-related
set enumerations agree on everything but the order of the proof indices. -/
theorem buildProofFromBlock_perm (h2 : Hash2) (s : RpcSnapshotM)
    (it1 it2 : List Nat → List Nat) (rbh : H256) (idxs : List Nat)
    (hp1 : ∀ l, (it1 l).Perm l) (hp2 : ∀ l, (it2 l).Perm l)
    (tp1 tp2 : TransactionProofM)
    (hb1 : buildProofFromBlock h2 s it1 rbh idxs = .ok tp1)
    (hb2 : buildProofFromBlock h2 s it2 rbh idxs = .ok tp2) :
    tp1.block_hash = tp2.block_hash ∧ tp1.witnesses_root = tp2.witnesses_root
      ∧ tp1.proof.indices.Perm tp2.proof.indices := by
  unfold buildProofFromBlock at hb1 hb2
  rcases hgb : s.get_block rbh with _ | block
  · rw [hgb] at hb1
    exact absurd hb1 (by simp)
  · rw [hgb] at hb1 hb2
    obtain rfl := Except.ok.inj hb1
    obtain rfl := Except.ok.inj hb2
    refine ⟨rfl, rfl, ?_⟩
    show ((it1 idxs).map fun i => i + (block.tx_hashes.length - 1)).Perm
      ((it2 idxs).map fun i => i + (block.tx_hashes.length - 1))
    exact ((hp1 idxs).map _).trans (((hp2 idxs).map _).symm)

/-- C6 amended: the resolved transaction indices are handed to the CBMT proof
builder in the hash set's unspecified iteration order with no ascending sort
in `get_transaction_proof`; for every valid input the block hash, the
witnesses root and the multiset of proof indices (though not their order) are
a deterministic function of the transaction hashes and the block. -/
theorem get_transaction_proof_indices_perm
    (h2 : Hash2) (s : RpcSnapshotM) (it1 it2 : List Nat → List Nat)
    (txs : List H256) (obh : Option H256)
    (hp1 : ∀ l, (it1 l).Perm l) (hp2 : ∀ l, (it2 l).Perm l)
    (tp1 tp2 : TransactionProofM)
    (e1 : get_transaction_proof h2 s it1 txs obh = .ok tp1)
    (e2 : get_transaction_proof h2 s it2 txs obh = .ok tp2) :
    tp1.block_hash = tp2.block_hash ∧ tp1.witnesses_root = tp2.witnesses_root
      ∧ tp1.proof.indices.Perm tp2.proof.indices := by
  unfold get_transaction_proof at e1 e2
  by_cases htxs : txs = []
  · rw [if_pos htxs] at e1
    exact absurd e1 (by simp)
  · rw [if_neg htxs] at e1
    rw [if_neg htxs] at e2
    rcases hres : resolveTxInfos s txs none [] with e | pr
    · rw [hres] at e1
      exact absurd e1 (by simp)
    · obtain ⟨retrieved, idxs⟩ := pr
      rw [hres] at e1 e2
      rcases retrieved with _ | rbh
      · exact absurd e1 (by simp)
      · rcases obh with _ | spec
        · exact buildProofFromBlock_perm h2 s it1 it2 rbh idxs hp1 hp2 tp1 tp2 e1 e2
        · by_cases hsp : rbh = spec
          · have e1' : (if rbh ≠ spec then
                  Except.error (RPCError.invalid_params
                    "Not all transactions found in specified block")
                else buildProofFromBlock h2 s it1 rbh idxs) = Except.ok tp1 := e1
            have e2' : (if rbh ≠ spec then
                  Except.error (RPCError.invalid_params
                    "Not all transactions found in specified block")
                else buildProofFromBlock h2 s it2 rbh idxs) = Except.ok tp2 := e2
            rw [if_neg (show ¬ rbh ≠ spec from by simp [hsp])] at e1' e2'
            exact buildProofFromBlock_perm h2 s it1 it2 rbh idxs hp1 hp2 tp1 tp2 e1' e2'
          · have e1' : (if rbh ≠ spec then
                  Except.error (RPCError.invalid_params
                    "Not all transactions found in specified block")
                else buildProofFromBlock h2 s it1 rbh idxs) = Except.ok tp1 := e1
            rw [if_pos hsp] at e1'
            exact absurd e1' (by simp)

/-- C6 amended witness: the reverse and identity enumerations over the
concrete snapshot `sC` yield proofs agreeing on block hash, witnesses root
and the multiset of indices. -/
theorem get_transaction_proof_indices_perm_witness :
    tpRevC.block_hash = tpIdC.block_hash
    ∧ tpRevC.witnesses_root = tpIdC.witnesses_root
    ∧ tpRevC.proof.indices.Perm tpIdC.proof.indices :=
  get_transaction_proof_indices_perm h2c sC List.reverse id [5, 7] none
    (fun l => l.reverse_perm) (fun l => List.Perm.refl l) tpRevC tpIdC rfl rfl

/-! ## Claim C7 -/

/-- C7 counterexample: a transaction (id 7) that the pool reports as pending
and that the snapshot also reports as committed at block 3 is returned with
status Pending, not `Committed(3)`: the pool response shadows the snapshot. -/
theorem get_transaction_pool_wins_cex :
    get_transaction ⟨.ok (some (false, 7)), some (7, 3)⟩ =
      .ok (some ⟨7, .pending⟩)
    ∧ get_transaction ⟨.ok (some (false, 7)), some (7, 3)⟩ ≠
      .ok (some ⟨7, .committed 3⟩) := by
  constructor
  · rfl
  · intro hc
    have : (some ⟨7, TxStatus.pending⟩ : Option TransactionWithStatusM) =
        some ⟨7, TxStatus.committed 3⟩ := Except.ok.inj hc
    simp at this

/-- C7 amended: `get_transaction` reports a transaction present in the pool
with its pool status — Proposed when proposed, Pending otherwise — regardless
of the snapshot; `Committed(block_hash)` is returned only when the pool does
not have the transaction and the snapshot does. -/
theorem get_transaction_pool_precedence (env : GetTxEnv) :
    (∀ proposed tx, env.fetch_tx_for_rpc = .ok (some (proposed, tx)) →
      get_transaction env =
        .ok (some ⟨tx, if proposed then .proposed else .pending⟩))
    ∧ (∀ tx bh, env.fetch_tx_for_rpc = .ok none →
        env.snapshot_get_transaction = some (tx, bh) →
        get_transaction env = .ok (some ⟨tx, .committed bh⟩)) := by
  constructor
  · intro proposed tx hf
    unfold get_transaction
    rw [hf]
    cases proposed <;> simp
  · intro tx bh hf hs
    unfold get_transaction
    rw [hf]
    simp [hs]

/-- C7 amended witness: a proposed pool transaction is reported as Proposed,
and a snapshot-only transaction is reported as Committed at its block. -/
theorem get_transaction_pool_precedence_witness :
    get_transaction ⟨.ok (some (true, 5)), none⟩ = .ok (some ⟨5, .proposed⟩)
    ∧ get_transaction ⟨.ok none, some (6, 4)⟩ = .ok (some ⟨6, .committed 4⟩) :=
  ⟨(get_transaction_pool_precedence ⟨.ok (some (true, 5)), none⟩).1 true 5 rfl,
   (get_transaction_pool_precedence ⟨.ok none, some (6, 4)⟩).2 6 4 rfl rfl⟩

/-! ## Claim C8 -/

/-- One-step characterization of `get_block_economic_state` once the block
number is known. -/
theorem get_block_economic_state_eq (s : EconSnapshot) (h : H256) (n : Nat)
    (hn : s.get_block_number h = some n) :
    get_block_economic_state s h =
      if n = 0 ∨ s.tip_number < n + s.finalization_delay_length then .ok none
      else
        match s.get_block_hash (n + s.finalization_delay_length) with
        | none => .ok none
        | some finalized_at =>
          match ((s.get_block_epoch_index h).bind s.get_epoch_ext).bind
              (fun epoch_ext =>
                (epoch_ext.block_reward n).bind (fun primary =>
                  (epoch_ext.secondary_block_issuance n
                      s.secondary_epoch_reward).map
                    (fun secondary => BlockIssuanceM.mk primary secondary))) with
          | none => .ok none
          | some issuance =>
            match (s.get_block_ext h).bind (fun be => sumTxsFees be.txs_fees) with
            | none => .ok none
            | some txs_fee =>
              .ok ((s.get_block_header h).bind (fun hdr =>
                (s.block_reward_for_target hdr).map (fun mr =>
                  ⟨issuance, mr, txs_fee, finalized_at⟩))) := by
  unfold get_block_economic_state
  rw [hn]

/-- C8: `get_block_economic_state` returns `none` for a hash absent from the
snapshot, for the genesis block, and for a block the tip has not yet
finalized; on success the returned `finalized_at` is the main-chain hash at
`number + finalization_delay_length` and `txs_fee` is the checked sum of
`block_ext.txs_fees`, an overflowing sum yielding `none` rather than a
wrapped value. -/
theorem get_block_economic_state_spec (s : EconSnapshot) (h : H256) :
    (s.get_block_number h = none → get_block_economic_state s h = .ok none)
    ∧ (s.get_block_number h = some 0 → get_block_economic_state s h = .ok none)
    ∧ (∀ n, s.get_block_number h = some n →
        s.tip_number < n + s.finalization_delay_length →
        get_block_economic_state s h = .ok none)
    ∧ (∀ n st, s.get_block_number h = some n →
        get_block_economic_state s h = .ok (some st) →
        s.get_block_hash (n + s.finalization_delay_length) = some st.finalized_at
        ∧ ∃ be, s.get_block_ext h = some be
            ∧ sumTxsFees be.txs_fees = some st.txs_fee)
    ∧ (∀ n be, s.get_block_number h = some n →
        s.get_block_ext h = some be → sumTxsFees be.txs_fees = none →
        get_block_economic_state s h = .ok none) := by
  refine ⟨?_, ?_, ?_, ?_, ?_⟩
  · intro hn
    unfold get_block_economic_state
    rw [hn]
  · intro hn
    rw [get_block_economic_state_eq s h 0 hn, if_pos (Or.inl rfl)]
  · intro n hn hlt
    rw [get_block_economic_state_eq s h n hn, if_pos (Or.inr hlt)]
  · intro n st hn he
    rw [get_block_economic_state_eq s h n hn] at he
    by_cases h0 : n = 0 ∨ s.tip_number < n + s.finalization_delay_length
    · rw [if_pos h0] at he
      exact absurd (Except.ok.inj he) (by simp)
    · rw [if_neg h0] at he
      rcases hfa : s.get_block_hash (n + s.finalization_delay_length) with _ | fa
      · rw [hfa] at he
        exact absurd (Except.ok.inj he) (by simp)
      · rw [hfa] at he
        rcases hiss : ((s.get_block_epoch_index h).bind s.get_epoch_ext).bind
            (fun epoch_ext =>
              (epoch_ext.block_reward n).bind (fun primary =>
                (epoch_ext.secondary_block_issuance n
                    s.secondary_epoch_reward).map
                  (fun secondary => BlockIssuanceM.mk primary secondary)))
            with _ | iss
        · rw [hiss] at he
          exact absurd (Except.ok.inj he) (by simp)
        · rw [hiss] at he
          rcases hbe : s.get_block_ext h with _ | be
          · rw [hbe] at he
            exact absurd (Except.ok.inj he) (by simp)
          · rw [hbe, Option.some_bind'] at he
            rcases hsf : sumTxsFees be.txs_fees with _ | fee
            · rw [hsf] at he
              exact absurd (Except.ok.inj he) (by simp)
            · rw [hsf] at he
              have h3 : (s.get_block_header h).bind (fun hdr =>
                  (s.block_reward_for_target hdr).map (fun mr =>
                    (⟨iss, mr, fee, fa⟩ : BlockEconomicStateM))) = some st :=
                Except.ok.inj he
              rcases hhd : s.get_block_header h with _ | hdr
              · rw [hhd] at h3
                simp at h3
              · rw [hhd, Option.some_bind'] at h3
                rcases hmr : s.block_reward_for_target hdr with _ | mr
                · rw [hmr] at h3
                  simp at h3
                · rw [hmr] at h3
                  have hst : (⟨iss, mr, fee, fa⟩ : BlockEconomicStateM) = st :=
                    Option.some.inj h3
                  obtain rfl := hst
                  exact ⟨rfl, be, rfl, hsf⟩
  · intro n be hn hbe hsf
    rw [get_block_economic_state_eq s h n hn]
    by_cases h0 : n = 0 ∨ s.tip_number < n + s.finalization_delay_length
    · rw [if_pos h0]
    · rw [if_neg h0]
      rcases hfa : s.get_block_hash (n + s.finalization_delay_length) with _ | fa
      · rfl
      · rcases hiss : ((s.get_block_epoch_index h).bind s.get_epoch_ext).bind
            (fun epoch_ext =>
              (epoch_ext.block_reward n).bind (fun primary =>
                (epoch_ext.secondary_block_issuance n
                    s.secondary_epoch_reward).map
                  (fun secondary => BlockIssuanceM.mk primary secondary)))
            with _ | iss
        · rfl
        · rw [hbe, Option.some_bind', hsf]

/-- C8 witness: on the concrete snapshot `sE` (block 40 at number 100, delay
11, tip 111) the success path returns `finalized_at` pointing at the block
at number 111 and the checked fee sum 6. -/
theorem get_block_economic_state_spec_witness :
    sE.get_block_hash (100 + sE.finalization_delay_length) =
      some (BlockEconomicStateM.mk ⟨50, 6⟩ 77 6 41).finalized_at
    ∧ ∃ be, sE.get_block_ext 40 = some be
        ∧ sumTxsFees be.txs_fees =
          some (BlockEconomicStateM.mk ⟨50, 6⟩ 77 6 41).txs_fee :=
  (get_block_economic_state_spec sE 40).2.2.2.1 100 ⟨⟨50, 6⟩, 77, 6, 41⟩ rfl rfl

/-! ## Claim C9 -/

/-- C9: `get_cells_by_lock_hash` rejects `from > to` and ranges wider than
`PAGE_SIZE` (100) as `InvalidParams`; a range of width exactly `PAGE_SIZE`
passes validation, and `from = to` scans exactly the single block `from`. -/
theorem get_cells_by_lock_hash_bounds (s : CellSnapshot) (lh : H256)
    (fr toN : Nat) :
    (toN < fr → get_cells_by_lock_hash s lh fr toN =
      .error (.invalid_params "Expected from <= to in params"))
    ∧ (fr ≤ toN → PAGE_SIZE < toN - fr → get_cells_by_lock_hash s lh fr toN =
        .error (.invalid_params "Expected to - from <= PAGE_SIZE in params"))
    ∧ (fr ≤ toN → toN - fr = PAGE_SIZE → get_cells_by_lock_hash s lh fr toN =
        scanRange s lh (rangeInclusive fr toN))
    ∧ (fr = toN → get_cells_by_lock_hash s lh fr toN =
        scanRange s lh [fr]) := by
  refine ⟨?_, ?_, ?_, ?_⟩
  · intro hlt
    unfold get_cells_by_lock_hash
    rw [if_pos (by omega)]
  · intro hle hgt
    unfold get_cells_by_lock_hash
    rw [if_neg (by omega), if_pos (by omega)]
  · intro hle heq
    unfold get_cells_by_lock_hash
    rw [if_neg (by omega), if_neg (by omega)]
  · intro heq
    subst heq
    unfold get_cells_by_lock_hash
    rw [if_neg (by omega), if_neg (by simp [PAGE_SIZE])]
    have hr : rangeInclusive fr fr = [fr] := by
      unfold rangeInclusive
      rw [show fr + 1 - fr = 1 from by omega]
      rw [show List.range 1 = [0] from by decide]
      simp
    rw [hr]

/-- C9 witness: over the concrete snapshot `sCell`, the call with
`from = to = 10` passes validation and scans exactly block 10. -/
theorem get_cells_by_lock_hash_bounds_witness :
    get_cells_by_lock_hash sCell 55 10 10 = scanRange sCell 55 [10] :=
  (get_cells_by_lock_hash_bounds sCell 55 10 10).2.2.2 rfl
